import Mathlib

/-!
Shallow embedding of the intent-routing, parameter-extraction, search and
dispatch logic of the SmartShopSaver agent system, together with proofs of
the behavioural properties stated in its specification.

Conventions of the embedding:
* Python strings are `List Char`; `str.lower()` is mapped ASCII lowering
  (the keyword vocabulary is Chinese or ASCII, where the two agree).
* Python float literals are embedded as exact rationals (`ℚ`); the scores
  involved are small sums of decimal literals and every property proved
  here is insensitive to IEEE rounding of those sums.
* Regex matching (`re.sub`, `re.search`) is embedded by hand-written
  scanners implementing the concrete patterns of the source, with `\s`
  and `\d` restricted to their ASCII ranges.
* Side effects (logging, the mutable conversation-history dict) are made
  explicit: stores are passed and returned, failures are collected in
  lists.
-/

namespace SmartShopSaver

/-- ASCII fragment of Python whitespace (`str.strip`, regex `\s`). -/
def pySpace (c : Char) : Bool :=
  c = ' ' || c = '\t' || c = '\n' || c = '\r' || c = '\x0b' || c = '\x0c'

/-- ASCII alphanumeric character. -/
def asciiAlnum (c : Char) : Bool :=
  c.isAlpha || c.isDigit

/-- `startsWith pat l` : `pat` is an initial segment of `l`. -/
def startsWith : List Char → List Char → Bool
  | [], _ => true
  | _ :: _, [] => false
  | p :: ps, c :: cs => p = c && startsWith ps cs

/-- Python's substring test `pat in l`. -/
def containsSub (pat : List Char) : List Char → Bool
  | [] => pat.isEmpty
  | c :: r => startsWith pat (c :: r) || containsSub pat r

/-- Python `str.lower()` (ASCII range; identity on the Chinese keywords used). -/
def lowerAscii (l : List Char) : List Char :=
  l.map Char.toLower

/-- Python `any(word in m for word in words)`. -/
def anyWord (words : List (List Char)) (m : List Char) : Bool :=
  words.any (fun w => containsSub w m)

/-! ## `agents/ai_intent_analyzer.py` — rule-based fallback classifier -/

def srWords1 : List (List Char) :=
  ["買", "推薦", "建議", "想要", "需要", "選", "哪個", "什麼", "好"].map String.data

def srWords2 : List (List Char) :=
  ["滑鼠", "鍵盤", "耳機", "手機", "筆電", "平板"].map String.data

def ptWords1 : List (List Char) :=
  ["價格", "多少錢", "追蹤", "降價", "便宜", "特價"].map String.data

def ptWords2 : List (List Char) :=
  ["通知", "提醒", "目標價"].map String.data

def prWords1 : List (List Char) :=
  ["評價", "評論", "好不好", "好用", "值得", "怎麼樣"].map String.data

def prWords2 : List (List Char) :=
  ["優點", "缺點", "心得", "體驗"].map String.data

def fiWords1 : List (List Char) :=
  ["記帳", "記錄", "花費", "花了", "消費", "支出"].map String.data

def fiWords2 : List (List Char) :=
  ["預算", "統計", "這個月", "本月", "今天"].map String.data

def gmWords1 : List (List Char) :=
  ["gmail", "mail", "郵件", "信件", "email"].map String.data

def gmWords2 : List (List Char) :=
  ["連接", "連結", "授權", "同步"].map String.data

/-- `recommendation_score` of `_advanced_fallback_analysis`. -/
def recommendationScore (m : List Char) : ℚ :=
  (if anyWord srWords1 (lowerAscii m) then (0.5 : ℚ) else 0) +
  (if anyWord srWords2 (lowerAscii m) then (0.3 : ℚ) else 0) +
  (if containsSub "?".data m || containsSub "？".data m || containsSub "嗎".data m
    then (0.2 : ℚ) else 0)

/-- `price_score` of `_advanced_fallback_analysis`. -/
def priceScore (m : List Char) : ℚ :=
  (if anyWord ptWords1 (lowerAscii m) then (0.7 : ℚ) else 0) +
  (if anyWord ptWords2 (lowerAscii m) then (0.3 : ℚ) else 0)

/-- `review_score` of `_advanced_fallback_analysis`. -/
def reviewScore (m : List Char) : ℚ :=
  (if anyWord prWords1 (lowerAscii m) then (0.7 : ℚ) else 0) +
  (if anyWord prWords2 (lowerAscii m) then (0.3 : ℚ) else 0)

/-- `finance_score` of `_advanced_fallback_analysis`. -/
def financeScore (m : List Char) : ℚ :=
  (if anyWord fiWords1 (lowerAscii m) then (0.7 : ℚ) else 0) +
  (if anyWord fiWords2 (lowerAscii m) then (0.3 : ℚ) else 0)

/-- `gmail_score` of `_advanced_fallback_analysis`. -/
def gmailScore (m : List Char) : ℚ :=
  (if anyWord gmWords1 (lowerAscii m) then (0.8 : ℚ) else 0) +
  (if anyWord gmWords2 (lowerAscii m) then (0.2 : ℚ) else 0)

/-- The `scores` dict of `_advanced_fallback_analysis`, in insertion order. -/
def scoreList (m : List Char) : List (String × ℚ) :=
  [("SmartRecommendation", recommendationScore m),
   ("PriceTracker", priceScore m),
   ("ProductReview", reviewScore m),
   ("Finance", financeScore m),
   ("Gmail", gmailScore m)]

/-- Python's binary `max` on two floats (embedded as rationals); spelled out
as an `if` so that it evaluates by kernel reduction. -/
def qmax (a b : ℚ) : ℚ :=
  if a ≤ b then b else a

/-- Python `max(scores.values())` (the list is nonempty; the head seeds the fold). -/
def maxScore (m : List Char) : ℚ :=
  ((scoreList m).tail.map Prod.snd).foldl qmax (recommendationScore m)

/-- One step of Python's `max(..., key=...)`: the current maximum is replaced
only by a strictly greater item, so the first maximal item wins. -/
def pyMaxStep (cur q : String × ℚ) : String × ℚ :=
  if cur.2 < q.2 then q else cur

/-- Python `max(scores, key=scores.get)` paired with its score. -/
def bestPair (m : List Char) : String × ℚ :=
  (scoreList m).tail.foldl pyMaxStep ("SmartRecommendation", recommendationScore m)

/-- `_guess_intent`. -/
def guessIntent (m : List Char) : String :=
  let ml := lowerAscii m
  if containsSub "買".data ml || containsSub "推薦".data ml then "尋求產品推薦"
  else if containsSub "價格".data ml || containsSub "多少錢".data ml then "查詢價格資訊"
  else if containsSub "評價".data ml || containsSub "好不好".data ml then "了解產品評價"
  else if containsSub "記帳".data ml || containsSub "花".data ml then "記錄財務資訊"
  else if containsSub "gmail".data ml || containsSub "郵件".data ml then "Gmail相關操作"
  else "一般諮詢"

def keywordProducts : List (List Char) :=
  ["滑鼠", "鍵盤", "耳機", "手機", "筆電", "平板", "iphone", "airpods"].map String.data

def keywordActions : List (List Char) :=
  ["買", "推薦", "價格", "評價", "記帳", "追蹤"].map String.data

/-- `_extract_keywords`. -/
def extractKeywords (m : List Char) : List (List Char) :=
  let ml := lowerAscii m
  ((keywordProducts.filter (fun w => containsSub w ml)) ++
   (keywordActions.filter (fun w => containsSub w ml))).take 5

/-- The `analysis` dict built by `_advanced_fallback_analysis`. -/
structure FallbackAnalysis where
  intent : String
  keywords : List (List Char)
  context : String
  reasoning : String
  deriving DecidableEq, Repr

def mkAnalysis (m : List Char) (best : String) : FallbackAnalysis :=
  { intent := guessIntent m
    keywords := extractKeywords m
    context := "基於規則分析"
    reasoning := "匹配度最高的功能是" ++ best }

/-- One turn of the per-user conversation history (the wall-clock timestamp
recorded by the source is not modelled). -/
structure HistoryTurn where
  message : List Char
  agent : String
  deriving DecidableEq, Repr

/-- `_advanced_fallback_analysis(message, context)`.  The `context` argument
is received but never read by the source function. -/
def fallbackAnalysis (m : List Char) (_ctx : List HistoryTurn) :
    String × ℚ × FallbackAnalysis :=
  if maxScore m = 0 then
    ("SmartRecommendation", (0.3 : ℚ), mkAnalysis m "SmartRecommendation")
  else
    let best := bestPair m
    (best.1, min best.2 (0.9 : ℚ), mkAnalysis m best.1)

/-! ## `agents/ai_intent_analyzer.py` — conversation history and `analyze_intent` -/

/-- The `conversation_history` dict, as a total map with default `[]`
(matching the `user_id in self.conversation_history` check of the source). -/
def ConvStore : Type := String → List HistoryTurn

/-- The truncation `self.conversation_history[user_id][-10:]` applied by
`_update_conversation_history` after appending, when the length exceeds 10. -/
def truncate10 (h : List HistoryTurn) : List HistoryTurn :=
  if 10 < h.length then h.drop (h.length - 10) else h

/-- `_update_conversation_history(user_id, message, agent)`.  A `none` or
empty user id is falsy in Python: the method returns without recording. -/
def updateConversationHistory (store : ConvStore) (uid : Option String)
    (msg : List Char) (agent : String) : ConvStore :=
  match uid with
  | none => store
  | some u =>
    if u = "" then store
    else fun v => if v = u then truncate10 (store u ++ [⟨msg, agent⟩]) else store v

/-- `_get_user_context(user_id)`. -/
def getUserContext (store : ConvStore) (u : String) : List HistoryTurn :=
  store u

/-- The reply decoded from the external classifier's JSON (`result.get` is
used with defaults, so both fields are optional).  The `analysis` dict of the
reply is not modelled: no claim depends on it. -/
structure OracleReply where
  agent : Option String
  confidence : Option ℚ

/-- `analyze_intent(message, user_id)`.

The ambient effects are made explicit: `hasApiKey` is whether `self.api_key`
is nonempty; `oracle` is the outcome of `_call_openai` (`none` covers both an
exception and a `None` reply, which reach the same final fallback line); the
conversation store is threaded through.  Returns `((agent, confidence),
store')`; the analysis component of the source's return triple is dropped. -/
def analyzeIntent (hasApiKey : Bool) (oracle : Option OracleReply)
    (store : ConvStore) (msg : List Char) (uid : Option String) :
    (String × ℚ) × ConvStore :=
  let ctx : List HistoryTurn :=
    match uid with
    | some u => if u = "" then [] else getUserContext store u
    | none => []
  if hasApiKey then
    match oracle with
    | some rep =>
      let agent := rep.agent.getD "SmartRecommendation"
      let conf := rep.confidence.getD (0.5 : ℚ)
      let store' := updateConversationHistory store uid msg agent
      ((agent, conf), store')
    | none =>
      let r := fallbackAnalysis msg ctx
      ((r.1, r.2.1), store)
  else
    let r := fallbackAnalysis msg ctx
    ((r.1, r.2.1), store)

/-- Recording a sequence of turns for one user (15 successive calls of
`_update_conversation_history` in the specification's scenario). -/
def recordTurns (store : ConvStore) (u : String) (ts : List HistoryTurn) : ConvStore :=
  ts.foldl (fun s t => updateConversationHistory s (some u) t.message t.agent) store

/-! ## `agents/base_agent.py` -/

/-- `BaseAgent.process_message(user_id, message)`.  The subclass hook
`_process_message_internal` is a parameter; an exception it raises is an
`Except.error`.  The wrapper's `try`/`except` turns any such error into the
generic unavailability reply. -/
def processMessage (agentName : String)
    (internal : String → List Char → Except String String)
    (uid : String) (msg : List Char) : String :=
  match internal uid msg with
  | .ok result => result
  | .error _ => "❌ " ++ agentName ++ " 暫時無法使用，請稍後再試"

/-- Python `str.strip()` (ASCII whitespace fragment). -/
def pyStrip (l : List Char) : List Char :=
  ((l.dropWhile pySpace).reverse.dropWhile pySpace).reverse

/-- `BaseAgent.validate_input(message)`. -/
def validateInput (m : List Char) : Bool :=
  if m.isEmpty || (pyStrip m).isEmpty then false
  else if 1000 < m.length then false
  else true

/-! ## `agents/price_tracker_agent_improved.py` — parameter extraction

`_extract_product_name` first deletes every match of the Python regex
`(目標價格|價格|元|\$|NT\$?)\s*\d+`.  The alternatives start with pairwise
distinct characters, so the scanner below can dispatch on the head; when the
committed alternative is not followed by `\s*\d+`, regex backtracking cannot
rescue the position (no other alternative starts with the same character,
and dropping the optional `$` of `NT\$?` leaves `\s*\d+` facing the `$`),
so the whole position fails and scanning advances one character — exactly
what `priceSub` does. -/

/-- Length consumed by `\s*\d+` at the head of `l`, if it matches. -/
def wsDigits (l : List Char) : Option Nat :=
  let sp := l.takeWhile pySpace
  let ds := (l.drop sp.length).takeWhile Char.isDigit
  if ds.isEmpty then none else some (sp.length + ds.length)

/-- Continuation of the `目標價格` alternative: requires `標價格` then
`\s*\d+`. -/
def matchAfterMu : List Char → Option Nat
  | c1 :: c2 :: c3 :: r2 =>
    if c1 = '標' && c2 = '價' && c3 = '格' then (wsDigits r2).map (· + 4)
    else none
  | _ => none

/-- Continuation of the `價格` alternative: requires `格` then `\s*\d+`. -/
def matchAfterJia : List Char → Option Nat
  | c1 :: r2 => if c1 = '格' then (wsDigits r2).map (· + 2) else none
  | [] => none

/-- Continuation after `NT`: the optional `$` is taken when present
(declining it would leave `\s*\d+` facing the `$`, which fails). -/
def matchAfterNT : List Char → Option Nat
  | c2 :: r2 =>
    if c2 = '$' then (wsDigits r2).map (· + 3)
    else (wsDigits (c2 :: r2)).map (· + 2)
  | [] => none

/-- Continuation of the `NT\$?` alternative: requires `T` first. -/
def matchAfterN : List Char → Option Nat
  | c1 :: r1 => if c1 = 'T' then matchAfterNT r1 else none
  | [] => none

/-- Length consumed by `(目標價格|價格|元|\$|NT\$?)\s*\d+` matching at the
head of the list, if it matches.  The five alternatives start with pairwise
distinct characters, so the scanner dispatches on the head. -/
def tryPriceMatch (l : List Char) : Option Nat :=
  match l with
  | [] => none
  | c :: r =>
    if c = '目' then matchAfterMu r
    else if c = '價' then matchAfterJia r
    else if c = '元' then (wsDigits r).map (· + 1)
    else if c = '$' then (wsDigits r).map (· + 1)
    else if c = 'N' then matchAfterN r
    else none

/-- The scanning loop of the price-pattern `re.sub`, with a step-count fuel
(seeded with the string length, an upper bound on the number of scanning
steps) making the recursion structural. -/
def priceSubGo : Nat → List Char → List Char
  | _, [] => []
  | 0, l => l
  | fuel + 1, c :: r =>
    match tryPriceMatch (c :: r) with
    | some n => priceSubGo fuel (r.drop (n - 1))
    | none => c :: priceSubGo fuel r

/-- `re.sub(r'(目標價格|價格|元|\$|NT\$?)\s*\d+', '', message)`:  delete each
leftmost non-overlapping match, scanning left to right. -/
def priceSub (l : List Char) : List Char :=
  priceSubGo l.length l

/-- The scanning loop of Python `str.replace(pat, rep)`, with the same
structural fuel as `priceSubGo`. -/
def replaceAllGo (pat rep : List Char) : Nat → List Char → List Char
  | _, [] => []
  | 0, l => l
  | fuel + 1, c :: r =>
    if startsWith pat (c :: r) && !pat.isEmpty then
      rep ++ replaceAllGo pat rep fuel (r.drop (pat.length - 1))
    else
      c :: replaceAllGo pat rep fuel r

/-- Python `str.replace(pat, rep)` on character lists (all occurrences,
leftmost first; `pat` nonempty for every use in the source). -/
def replaceAll (pat rep l : List Char) : List Char :=
  replaceAllGo pat rep l.length l

/-- The `remove_keywords` list of `_extract_product_name`. -/
def removeKw : List (List Char) :=
  [['追', '蹤'], ['監', '控'], ['通', '知'], ['降', '價'],
   ['請', '幫', '我'], ['幫', '我'], ['查', '詢'], ['查', '價'],
   ['移', '除'], ['刪', '除'], ['取', '消']]

/-- The keyword-removal loop: each keyword replaced by a space, in order. -/
def removeKeywords (l : List Char) : List Char :=
  removeKw.foldl (fun s kw => replaceAll kw [' '] s) l

/-- `re.sub(r'[，,。.！!？?]', ' ', clean)`. -/
def punctClear (l : List Char) : List Char :=
  l.map (fun c =>
    if c = '，' || c = ',' || c = '。' || c = '.' ||
       c = '！' || c = '!' || c = '？' || c = '?' then ' ' else c)

/-- `re.sub(r'\s+', ' ', clean)`: every maximal whitespace run becomes one
space (emitted at the run's last character). -/
def collapseWs : List Char → List Char
  | [] => []
  | [c] => if pySpace c then [' '] else [c]
  | c1 :: c2 :: r =>
    if pySpace c1 && pySpace c2 then collapseWs (c2 :: r)
    else (if pySpace c1 then ' ' else c1) :: collapseWs (c2 :: r)

/-- `PriceTrackerAgent._extract_product_name(message)`. -/
def extractProductName (msg : List Char) : Option (List Char) :=
  let c1 := priceSub msg
  let c2 := removeKeywords c1
  let c3 := punctClear c2
  let c4 := pyStrip (collapseWs c3)
  if 2 < c4.length then some c4 else none

/-- Decimal value of a digit string (the group captured by `(\d+)`;
`float(...)` of the source is modelled exactly, as a natural number). -/
def parseDigits (ds : List Char) : Nat :=
  ds.foldl (fun a c => 10 * a + (c.toNat - 48)) 0

/-- Tail of `patterns[0..2]`: `\s*[::：]?\s*(\d+)` after the keyword.
Whitespace, the optional colon and digits are pairwise disjoint character
classes, so the greedy reading coincides with the regex. -/
def wsColonDigits (l : List Char) : Option Nat :=
  let l1 := l.dropWhile pySpace
  let l2 :=
    match l1 with
    | c :: r => if c = ':' || c = '：' then r else l1
    | [] => l1
  let ds := (l2.dropWhile pySpace).takeWhile Char.isDigit
  if ds.isEmpty then none else some (parseDigits ds)

/-- Tail `\s*(\d+)` after `NT\$?` / `\$`. -/
def wsDigitsVal (l : List Char) : Option Nat :=
  let ds := (l.dropWhile pySpace).takeWhile Char.isDigit
  if ds.isEmpty then none else some (parseDigits ds)

/-- `目標價格\s*[::：]?\s*(\d+)` at the head of `l`. -/
def matchTargetP1 (l : List Char) : Option Nat :=
  if startsWith "目標價格".data l then wsColonDigits (l.drop 4) else none

/-- `目標\s*[::：]?\s*(\d+)` at the head of `l`. -/
def matchTargetP2 (l : List Char) : Option Nat :=
  if startsWith "目標".data l then wsColonDigits (l.drop 2) else none

/-- `價格\s*[::：]?\s*(\d+)` at the head of `l`. -/
def matchTargetP3 (l : List Char) : Option Nat :=
  if startsWith "價格".data l then wsColonDigits (l.drop 2) else none

/-- `(\d{4,})\s*元` at the head of `l` (the digit run is maximal: giving
digits back up still faces a digit, never `\s` or `元`). -/
def matchYuan (l : List Char) : Option Nat :=
  let ds := l.takeWhile Char.isDigit
  if 4 ≤ ds.length && startsWith "元".data ((l.drop ds.length).dropWhile pySpace)
  then some (parseDigits ds) else none

/-- `NT\$?\s*(\d+)` at the head of `l`. -/
def matchNT (l : List Char) : Option Nat :=
  if startsWith "NT".data l then
    let r := l.drop 2
    let r2 := match r with
              | '$' :: r3 => r3
              | _ => r
    wsDigitsVal r2
  else none

/-- `\$\s*(\d+)` at the head of `l`. -/
def matchDollar (l : List Char) : Option Nat :=
  match l with
  | '$' :: r => wsDigitsVal r
  | _ => none

/-- `re.search`: first position (left to right) where the head matcher
succeeds.  Every pattern used needs at least one character, so the empty
suffix never matches. -/
def searchFirst (matchAt : List Char → Option Nat) : List Char → Option Nat
  | [] => none
  | c :: r =>
    match matchAt (c :: r) with
    | some v => some v
    | none => searchFirst matchAt r

/-- The `patterns` list of `_extract_target_price`, in order. -/
def targetPricePatterns : List (List Char → Option Nat) :=
  [matchTargetP1, matchTargetP2, matchTargetP3, matchYuan, matchNT, matchDollar]

/-- The pattern loop of `_extract_target_price`: the first pattern that has a
match yields its (first) matched number; if that number is below 100 the loop
moves on to the next pattern. -/
def firstAcceptedPrice : List (List Char → Option Nat) → List Char → Option Nat
  | [], _ => none
  | f :: fs, msg =>
    match searchFirst f msg with
    | some v => if 100 ≤ v then some v else firstAcceptedPrice fs msg
    | none => firstAcceptedPrice fs msg

/-- `PriceTrackerAgent._extract_target_price(message)`. -/
def extractTargetPrice (msg : List Char) : Option Nat :=
  firstAcceptedPrice targetPricePatterns msg

/-! ## Auxiliary definitions for the stated properties -/

/-- The decimal digit character for `d < 10`. -/
def digitChar (d : Nat) : Char :=
  Char.ofNat (48 + d)

/-- Little-endian decimal digit characters of `n`, with structural fuel
(any fuel `≥ n` suffices; equals `(Nat.digits 10 n).map digitChar`). -/
def natDigitsRev : Nat → Nat → List Char
  | _, 0 => []
  | 0, _ => []
  | fuel + 1, n + 1 =>
    digitChar ((n + 1) % 10) :: natDigitsRev fuel ((n + 1) / 10)

/-- The decimal digit string of `n` (most significant digit first). -/
def natDigits (n : Nat) : List Char :=
  (natDigitsRev n n).reverse

/-- Characters admitted in the products of the extraction round-trip:
ASCII alphanumerics and the space. -/
def goodProductChar (c : Char) : Bool :=
  asciiAlnum c || c = ' '

/-- No two consecutive spaces. -/
def noDoubleSpace : List Char → Bool
  | [] => true
  | [_] => true
  | c1 :: c2 :: r => !(c1 = ' ' && c2 = ' ') && noDoubleSpace (c2 :: r)

/-- An occurrence of `NT` followed (after spaces) by a digit: the price
pattern `NT\$?\s*\d+` deletes such a span from a product.  The `headD '目'`
default mirrors the message context, where a product's trailing spaces are
followed by the non-digit `目`. -/
def ntHazard : List Char → Bool
  | [] => false
  | c :: r =>
    (c = 'N' &&
      (match r with
       | c1 :: r1 =>
         c1 = 'T' && ((r1.dropWhile (fun x => x = ' ')).headD '目').isDigit
       | [] => false))
    || ntHazard r

/-- The suffix ` 目標價格 {N}` of the tracking template. -/
def trackTail (n : Nat) : List Char :=
  ' ' :: '目' :: '標' :: '價' :: '格' :: ' ' :: natDigits n

/-- The constructed tracking message `追蹤 {product} 目標價格 {N}` (the
template of the agent's help text; the spec's
`track {product} target price {N}`). -/
def trackMessage (p : List Char) (n : Nat) : List Char :=
  '追' :: '蹤' :: ' ' :: (p ++ trackTail n)

/-- Folding `_update_conversation_history`'s append-and-truncate step over a
list of turns, seen from one user's history. -/
def histAfter (h : List HistoryTurn) (ts : List HistoryTurn) : List HistoryTurn :=
  ts.foldl (fun acc t => truncate10 (acc ++ [t])) h

/-- The first score-list entry attaining a given score (Python's
`max(scores, key=scores.get)` tie-break: first registered wins). -/
def firstWithMax (l : List (String × ℚ)) (q : ℚ) : Option String :=
  (l.find? (fun x => x.2 = q)).map Prod.fst

/-! ## `agents/price_tracker_agent_improved.py` — `_filter_products` -/

/-- A PChome search candidate (the fields of the `prods` dicts that
`_filter_products` and its callers read). -/
structure Product where
  name : String
  price : Nat
  pid : String
  deriving DecidableEq, Repr

/-- The `exclude_keywords` list of `_filter_products`. -/
def excludeKeywords : List String :=
  ["保護套", "保護殼", "手機殼", "皮套", "充電器", "充電線",
   "傳輸線", "電池", "行動電源", "耳機套", "支架", "貼膜",
   "保護貼", "配件", "周邊", "專用", "適用於"]

/-- Whether a candidate's (lowercased) name contains an exclusion keyword. -/
def isAccessory (p : Product) : Bool :=
  excludeKeywords.any (fun ex => containsSub ex.data (lowerAscii p.name.data))

/-- `PriceTrackerAgent._filter_products(products, query)` (the `query`
parameter is received but never read by the source). -/
def filterProducts (products : List Product) (_query : String) : List Product :=
  let filtered := products.filter (fun p => !isAccessory p)
  if filtered.isEmpty then products.take 10 else filtered.take 10

/-! ## `agents/multi_platform_search.py` -/

/-- A result row built by the per-platform search functions. -/
structure MPProduct where
  platform : String
  name : String
  price : Nat
  url : String
  deriving DecidableEq, Repr

/-- The `results` dict of `search_all_platforms`, keys in insertion order. -/
structure SearchResults where
  pchome : List MPProduct
  momo : List MPProduct
  shopee : List MPProduct
  deriving DecidableEq, Repr

/-- `future.result()` under the per-future `try`: an exception leaves the
platform's entry at its initialised `[]`. -/
def okList (r : Except String (List MPProduct)) : List MPProduct :=
  match r with
  | .ok l => l
  | .error _ => []

def isSearchError (r : Except String (List MPProduct)) : Bool :=
  match r with
  | .ok _ => false
  | .error _ => true

/-- `search_all_platforms(keyword, limit)` with the three platform calls as
explicit outcomes.  Each future is collected under its own `try`, so one
failure never aborts the loop; `logger.error` per failed platform is
modelled by the returned list of failed platform names.  (`as_completed`
yields the futures in a nondeterministic order, but each result is stored
under its own key and the error log is modelled as an unordered record,
so the fixed order below loses nothing.) -/
def searchAllPlatforms (pc mo sh : Except String (List MPProduct)) :
    SearchResults × List String :=
  (⟨okList pc, okList mo, okList sh⟩,
   (if isSearchError pc then ["pchome"] else []) ++
   (if isSearchError mo then ["momo"] else []) ++
   (if isSearchError sh then ["shopee"] else []))

/-- The `all_products` concatenation of `format_multi_platform_response`
(dict iteration order = insertion order: pchome, momo, shopee). -/
def allProducts (r : SearchResults) : List MPProduct :=
  r.pchome ++ r.momo ++ r.shopee

/-- `all_products.sort(key=lambda x: x.get('price', inf))` — stable ascending
sort by price (every row built by the sources carries a price). -/
def sortedProducts (r : SearchResults) : List MPProduct :=
  (allProducts r).mergeSort (fun a b => a.price ≤ b.price)

/-- The shape of the reply string of `format_multi_platform_response`:
either the not-found message, or the header plus the five cheapest rows in
sorted order (and the total count when more than five were found). -/
inductive MultiPlatformResponse where
  | notFound (keyword : String)
  | priced (top : List MPProduct) (total : Nat)
  deriving DecidableEq, Repr

/-- `format_multi_platform_response(results, keyword)`, with the reply
abstracted to its structure. -/
def formatMultiPlatformResponse (r : SearchResults) (keyword : String) :
    MultiPlatformResponse :=
  if (allProducts r).isEmpty then .notFound keyword
  else .priced ((sortedProducts r).take 5) (sortedProducts r).length

/-! ## Helper lemmas -/

theorem pyStrip_eq_nil_iff (m : List Char) :
    pyStrip m = [] ↔ ∀ c ∈ m, pySpace c = true := by
  unfold pyStrip
  rw [List.reverse_eq_nil_iff, List.dropWhile_eq_nil_iff]
  constructor
  · intro h c hc
    by_cases hs : pySpace c = true
    · exact hs
    · exfalso
      have hsplit := List.takeWhile_append_dropWhile pySpace m
      have hc' : c ∈ List.takeWhile pySpace m ++ List.dropWhile pySpace m := by
        rw [hsplit]; exact hc
      rcases List.mem_append.mp hc' with h1 | h2
      · exact hs (List.mem_takeWhile_imp h1)
      · exact hs (h c (List.mem_reverse.mpr h2))
  · intro h c hc
    exact h c ((List.dropWhile_sublist pySpace).subset (List.mem_reverse.mp hc))

theorem firstAcceptedPrice_ge (fs : List (List Char → Option Nat))
    (msg : List Char) (v : Nat) :
    firstAcceptedPrice fs msg = some v → 100 ≤ v := by
  induction fs with
  | nil => intro h; cases h
  | cons f fs ih =>
    intro h
    unfold firstAcceptedPrice at h
    cases hs : searchFirst f msg with
    | none => rw [hs] at h; exact ih h
    | some w =>
      rw [hs] at h
      dsimp only at h
      by_cases hw : 100 ≤ w
      · rw [if_pos hw] at h; cases h; exact hw
      · rw [if_neg hw] at h; exact ih h

theorem firstAcceptedPrice_none (fs : List (List Char → Option Nat))
    (msg : List Char) :
    (fs.all fun f =>
      match searchFirst f msg with
      | some v => decide (v < 100)
      | none => true) = true →
    firstAcceptedPrice fs msg = none := by
  induction fs with
  | nil => intro _; rfl
  | cons f fs ih =>
    intro h
    rw [List.all_cons, Bool.and_eq_true] at h
    unfold firstAcceptedPrice
    cases hs : searchFirst f msg with
    | none => exact ih h.2
    | some w =>
      have h1 := h.1
      rw [hs] at h1
      simp only [decide_eq_true_eq] at h1
      dsimp only
      rw [if_neg (by omega)]
      exact ih h.2

theorem maxScore_eq_zero_of (m : List Char)
    (h1 : recommendationScore m = 0) (h2 : priceScore m = 0)
    (h3 : reviewScore m = 0) (h4 : financeScore m = 0)
    (h5 : gmailScore m = 0) : maxScore m = 0 := by
  simp [maxScore, scoreList, h1, h2, h3, h4, h5, qmax]

/-! ## Claim theorems -/

/-- C1.  When every per-handler keyword score of the rule-based fallback
classifier is 0 (`max(scores.values()) == 0`), the routing decision is the
default handler `SmartRecommendation` with confidence exactly 0.3. -/
theorem C1_fallback_default (m : List Char) (ctx : List HistoryTurn)
    (h : maxScore m = 0) :
    (fallbackAnalysis m ctx).1 = "SmartRecommendation" ∧
    (fallbackAnalysis m ctx).2.1 = (0.3 : ℚ) := by
  simp [fallbackAnalysis, h]

theorem C1_fallback_default_witness :
    (fallbackAnalysis "zzz".data []).1 = "SmartRecommendation" ∧
    (fallbackAnalysis "zzz".data []).2.1 = (0.3 : ℚ) :=
  C1_fallback_default "zzz".data [] (by
    have hA : anyWord srWords1 (lowerAscii "zzz".data) = false := by decide
    have hB : anyWord srWords2 (lowerAscii "zzz".data) = false := by decide
    have hC1 : containsSub "?".data "zzz".data = false := by decide
    have hC2 : containsSub "？".data "zzz".data = false := by decide
    have hC3 : containsSub "嗎".data "zzz".data = false := by decide
    have hD : anyWord ptWords1 (lowerAscii "zzz".data) = false := by decide
    have hE : anyWord ptWords2 (lowerAscii "zzz".data) = false := by decide
    have hF : anyWord prWords1 (lowerAscii "zzz".data) = false := by decide
    have hG : anyWord prWords2 (lowerAscii "zzz".data) = false := by decide
    have hH : anyWord fiWords1 (lowerAscii "zzz".data) = false := by decide
    have hI : anyWord fiWords2 (lowerAscii "zzz".data) = false := by decide
    have hJ : anyWord gmWords1 (lowerAscii "zzz".data) = false := by decide
    have hK : anyWord gmWords2 (lowerAscii "zzz".data) = false := by decide
    refine maxScore_eq_zero_of _ ?_ ?_ ?_ ?_ ?_ <;>
      simp [recommendationScore, priceScore, reviewScore, financeScore,
        gmailScore, hA, hB, hC1, hC2, hC3, hD, hE, hF, hG, hH, hI, hJ, hK])

/-- C4.  `_extract_target_price` never returns a value below the
plausibility threshold 100, and when the first match of every pattern is
below 100 (in particular when no pattern matches a number at all) it
returns `None` instead of failing. -/
theorem C4_price_threshold (msg : List Char) :
    (∀ v, extractTargetPrice msg = some v → 100 ≤ v) ∧
    ((targetPricePatterns.all fun f =>
        match searchFirst f msg with
        | some v => decide (v < 100)
        | none => true) = true →
      extractTargetPrice msg = none) :=
  ⟨fun v h => firstAcceptedPrice_ge targetPricePatterns msg v h,
   fun h => firstAcceptedPrice_none targetPricePatterns msg h⟩

theorem C4_price_threshold_witness :
    extractTargetPrice "$50".data = none :=
  (C4_price_threshold "$50".data).2 (by decide)

/-- C5.  `_filter_products`: if the accessory-exclusion filter would remove
every candidate, it is skipped and the pre-filter top 10 are returned;
otherwise no returned candidate's lowercased name contains an exclusion
keyword. -/
theorem C5_filter_safety (ps : List Product) (q : String) (_hne : ps ≠ []) :
    (ps.filter (fun p => !isAccessory p) = [] → filterProducts ps q = ps.take 10) ∧
    (ps.filter (fun p => !isAccessory p) ≠ [] →
      ∀ p ∈ filterProducts ps q, isAccessory p = false) := by
  unfold filterProducts
  by_cases hf : ps.filter (fun p => !isAccessory p) = []
  · refine ⟨fun _ => ?_, fun hne' => absurd hf hne'⟩
    rw [hf]
    rfl
  · refine ⟨fun h => absurd h hf, fun _ p hp => ?_⟩
    rw [if_neg (by simpa [List.isEmpty_iff] using hf)] at hp
    have := List.mem_filter.mp (List.take_subset 10 _ hp)
    simpa using this.2

theorem C5_filter_safety_witness :
    filterProducts [⟨"iPhone 15 保護殼", 500, "x"⟩] "iPhone 15" =
      [⟨"iPhone 15 保護殼", 500, "x"⟩] :=
  ((C5_filter_safety [⟨"iPhone 15 保護殼", 500, "x"⟩] "iPhone 15"
      (by decide)).1 (by decide)).trans (by decide)

/-- C7.  `BaseAgent.process_message` catches any exception of the handler's
internal processing and returns the generic unavailability reply, never
propagating the exception. -/
theorem C7_dispatch_isolation (agentName : String)
    (internal : String → List Char → Except String String)
    (uid : String) (msg : List Char) (e : String)
    (h : internal uid msg = .error e) :
    processMessage agentName internal uid msg =
      "❌ " ++ agentName ++ " 暫時無法使用，請稍後再試" := by
  unfold processMessage
  rw [h]

theorem C7_dispatch_isolation_witness :
    processMessage "PriceTracker" (fun _ _ => .error "boom") "u" "hi".data =
      "❌ " ++ "PriceTracker" ++ " 暫時無法使用，請稍後再試" :=
  C7_dispatch_isolation "PriceTracker" (fun _ _ => .error "boom") "u" "hi".data
    "boom" rfl

/-- C10.  `BaseAgent.validate_input` accepts exactly the messages that
contain a non-whitespace character and are at most 1000 characters long. -/
theorem C10_validate_input (m : List Char) :
    validateInput m = true ↔
      (∃ c ∈ m, pySpace c = false) ∧ m.length ≤ 1000 := by
  unfold validateInput
  split_ifs with h1 h2
  · simp only [Bool.false_eq_true, false_iff, not_and]
    rintro ⟨c, hc, hcf⟩
    rcases Bool.or_eq_true_iff.mp h1 with he | hs
    · rw [List.isEmpty_iff] at he
      rw [he] at hc
      cases hc
    · rw [List.isEmpty_iff] at hs
      rw [(pyStrip_eq_nil_iff m).mp hs c hc] at hcf
      cases hcf
  · simp only [Bool.false_eq_true, false_iff, not_and]
    intro _
    omega
  · simp only [true_iff]
    rw [Bool.or_eq_true] at h1
    push_neg at h1
    obtain ⟨-, hB⟩ := h1
    have hstrip : pyStrip m ≠ [] := fun h => hB (by rw [h]; rfl)
    refine ⟨?_, by omega⟩
    by_contra hall
    push_neg at hall
    refine hstrip ((pyStrip_eq_nil_iff m).mpr fun c hc => ?_)
    simpa using hall c hc

/-! ## Helper lemmas for the conversation history (C2, C8) -/

theorem truncate10_eq_drop (h : List HistoryTurn) :
    truncate10 h = h.drop (h.length - 10) := by
  unfold truncate10
  split_ifs with hl
  · rfl
  · rw [show h.length - 10 = 0 by omega, List.drop_zero]

theorem truncate10_len_le (h : List HistoryTurn) :
    (truncate10 h).length ≤ 10 := by
  rw [truncate10_eq_drop, List.length_drop]
  omega

theorem histAfter_eq (ts : List HistoryTurn) :
    ∀ h : List HistoryTurn, h.length ≤ 10 →
      histAfter h ts = (h ++ ts).drop ((h ++ ts).length - 10) := by
  induction ts with
  | nil =>
    intro h hl
    unfold histAfter
    simp only [List.foldl_nil, List.append_nil]
    rw [show h.length - 10 = 0 by omega, List.drop_zero]
  | cons t ts ih =>
    intro h hl
    show histAfter (truncate10 (h ++ [t])) ts = _
    rw [ih _ (truncate10_len_le _), truncate10_eq_drop]
    by_cases hc : h.length + 1 ≤ 10
    · rw [show (h ++ [t]).length - 10 = 0 by simp; omega, List.drop_zero,
        List.append_assoc, List.singleton_append]
    · have h10 : h.length = 10 := by omega
      cases h with
      | nil => simp at h10
      | cons hh htl =>
        have h9 : htl.length = 9 := by simpa using h10
        rw [show (hh :: htl ++ [t]).length - 10 = 1 by simp [h9],
          List.cons_append, List.drop_succ_cons, List.drop_zero]
        rw [List.cons_append,
          show ((hh :: (htl ++ t :: ts)).length - 10) =
            ((htl ++ t :: ts).length - 9) by simp,
          show (htl ++ t :: ts).length - 9 = ts.length + 1 by simp [h9],
          List.drop_succ_cons, List.append_assoc, List.singleton_append,
          show ts.length = (htl ++ t :: ts).length - 10 by
            simp only [List.length_append, List.length_cons, h9]; omega]

theorem recordTurns_apply (u : String) (hu : u ≠ "") (ts : List HistoryTurn) :
    ∀ store : ConvStore, recordTurns store u ts u = histAfter (store u) ts := by
  induction ts with
  | nil => intro store; rfl
  | cons t ts ih =>
    intro store
    show recordTurns
        (updateConversationHistory store (some u) t.message t.agent) u ts u = _
    rw [ih]
    show histAfter
        ((updateConversationHistory store (some u) t.message t.agent) u) ts = _
    unfold updateConversationHistory
    dsimp only
    rw [if_neg hu, if_pos rfl]
    rfl

/-! ## Helper lemmas for the fallback argmax (C9) -/

theorem foldl_pyMaxStep_snd (l : List (String × ℚ)) :
    ∀ p : String × ℚ, (l.foldl pyMaxStep p).2 = (l.map Prod.snd).foldl qmax p.2 := by
  induction l with
  | nil => intro p; rfl
  | cons q t ih =>
    intro p
    show (t.foldl pyMaxStep (pyMaxStep p q)).2 = (t.map Prod.snd).foldl qmax (qmax p.2 q.2)
    rw [ih]
    congr 1
    unfold pyMaxStep qmax
    by_cases hpq : p.2 < q.2
    · rw [if_pos hpq, if_pos hpq.le]
    · rw [if_neg hpq]
      push_neg at hpq
      by_cases he : p.2 ≤ q.2
      · rw [if_pos he, le_antisymm he hpq]
      · rw [if_neg he]

theorem le_foldl_qmax (l : List ℚ) : ∀ a : ℚ, a ≤ l.foldl qmax a := by
  induction l with
  | nil => intro a; exact le_refl a
  | cons b t ih =>
    intro a
    calc a ≤ qmax a b := by
          unfold qmax; split_ifs with h
          · exact h
          · exact le_refl a
    _ ≤ t.foldl qmax (qmax a b) := ih _

theorem foldl_pyMaxStep_first (l : List (String × ℚ)) :
    ∀ p : String × ℚ, ∃ l1 l2,
      p :: l = l1 ++ (l.foldl pyMaxStep p) :: l2 ∧
      ∀ x ∈ l1, x.2 < (l.foldl pyMaxStep p).2 := by
  induction l with
  | nil => intro p; exact ⟨[], [], rfl, by simp⟩
  | cons q t ih =>
    intro p
    show ∃ l1 l2, p :: q :: t = l1 ++ (t.foldl pyMaxStep (pyMaxStep p q)) :: l2 ∧
      ∀ x ∈ l1, x.2 < (t.foldl pyMaxStep (pyMaxStep p q)).2
    by_cases hpq : p.2 < q.2
    · have hstep : pyMaxStep p q = q := by unfold pyMaxStep; rw [if_pos hpq]
      rw [hstep]
      obtain ⟨l1, l2, heq, hlt⟩ := ih q
      refine ⟨p :: l1, l2, ?_, ?_⟩
      · rw [List.cons_append, ← heq]
      · intro x hx
        rcases List.mem_cons.mp hx with rfl | hx'
        · calc x.2 < q.2 := hpq
          _ ≤ (t.foldl pyMaxStep q).2 := by
            rw [foldl_pyMaxStep_snd]; exact le_foldl_qmax _ _
        · exact hlt x hx'
    · have hstep : pyMaxStep p q = p := by unfold pyMaxStep; rw [if_neg hpq]
      rw [hstep]
      push_neg at hpq
      obtain ⟨l1, l2, heq, hlt⟩ := ih p
      cases l1 with
      | nil =>
        have hp : t.foldl pyMaxStep p = p := by
          have := congrArg (List.head? ·) heq
          simpa using this.symm
        have ht : l2 = t := by
          have := congrArg (List.tail ·) heq
          simpa using this.symm
        refine ⟨[], q :: t, ?_, by simp⟩
        rw [hp, List.nil_append]
      | cons y l1' =>
        have hy : y = p := by
          have := congrArg (List.head? ·) heq
          simpa using this.symm
        have ht : t = l1' ++ (t.foldl pyMaxStep p) :: l2 := by
          have := congrArg (List.tail ·) heq
          simpa using this
        refine ⟨p :: q :: l1', l2, ?_, ?_⟩
        · rw [List.cons_append, List.cons_append, ← ht]
        · intro x hx
          have hyl : y ∈ y :: l1' := List.mem_cons_self y l1'
          rcases List.mem_cons.mp hx with rfl | hx'
          · exact hy ▸ hlt y hyl
          · rcases List.mem_cons.mp hx' with rfl | hx''
            · calc x.2 ≤ p.2 := hpq
              _ < _ := hy ▸ hlt y hyl
            · exact hlt x (List.mem_cons_of_mem y hx'')

theorem maxScore_eval (m : List Char) :
    maxScore m =
      qmax (qmax (qmax (qmax (recommendationScore m) (priceScore m))
        (reviewScore m)) (financeScore m)) (gmailScore m) := by
  simp [maxScore, scoreList]

theorem find?_first_block (l1 l2 : List (String × ℚ)) (b : String × ℚ) (q : ℚ)
    (hb : b.2 = q) (hlt : ∀ x ∈ l1, x.2 < q) :
    (l1 ++ b :: l2).find? (fun x => x.2 = q) = some b := by
  induction l1 with
  | nil => simp [List.find?_cons, hb]
  | cons y t ih =>
    rw [List.cons_append, List.find?_cons_of_neg]
    · exact ih fun x hx => hlt x (List.mem_cons_of_mem y hx)
    · simp only [decide_eq_true_eq]
      exact ne_of_lt (hlt y (List.mem_cons_self y t))

/-- C2 (counterexample).  On the fallback path (no API key) the conversation
store is left untouched: routing `"追蹤 iPhone 15 價格"` for user `"u"` leaves
the user's history empty, so the turn is not recorded. -/
theorem C2_fallback_not_recorded :
    (analyzeIntent false none (fun _ => []) "追蹤 iPhone 15 價格".data
      (some "u")).2 "u" = [] := rfl

/-- C2 (amended).  The conversation turn is recorded only on the external
classifier's success path: with an API key and a classifier reply the turn
(message, resolved agent) is appended (with the 10-entry cap) to the user's
history, while on either fallback path (no API key, or classifier failure)
the store is returned unchanged. -/
theorem C2_history_recording (store : ConvStore) (msg : List Char) (u : String)
    (rep : OracleReply) (oracle : Option OracleReply) (uid : Option String)
    (hu : u ≠ "") :
    ((analyzeIntent true (some rep) store msg (some u)).2 u
        = truncate10 (store u ++ [⟨msg, rep.agent.getD "SmartRecommendation"⟩]))
    ∧ ((analyzeIntent false oracle store msg uid).2 = store)
    ∧ ((analyzeIntent true none store msg uid).2 = store) := by
  refine ⟨?_, rfl, rfl⟩
  show (updateConversationHistory store (some u) msg
      (rep.agent.getD "SmartRecommendation")) u = _
  unfold updateConversationHistory
  dsimp only
  rw [if_neg hu, if_pos rfl]

theorem C2_history_recording_witness :
    ((analyzeIntent true (some ⟨some "PriceTracker", none⟩) (fun _ => [])
        "hi".data (some "u")).2 "u"
      = truncate10 ((fun _ => ([] : List HistoryTurn)) "u" ++
          [⟨"hi".data, "PriceTracker"⟩]))
    ∧ ((analyzeIntent false none (fun _ => []) "hi".data (some "u")).2
        = fun _ => [])
    ∧ ((analyzeIntent true none (fun _ => []) "hi".data (some "u")).2
        = fun _ => []) :=
  C2_history_recording (fun _ => []) "hi".data "u" ⟨some "PriceTracker", none⟩
    none (some "u") (by decide)

/-- C6.  `search_all_platforms` with exactly one failing source: the failed
platform contributes `[]` and is recorded as failed, the call itself returns
normally, and the aggregated product list of
`format_multi_platform_response` is exactly the candidates of the other two
sources sorted ascending by price (and the reply is not the error branch
when those candidates are nonempty). -/
theorem C6_partial_failure (pc mo sh : Except String (List MPProduct)) (k : String)
    (h : (if isSearchError pc then 1 else 0) + (if isSearchError mo then 1 else 0)
        + (if isSearchError sh then 1 else 0) = 1) :
    (searchAllPlatforms pc mo sh).2.length = 1
    ∧ (isSearchError pc = true →
        (searchAllPlatforms pc mo sh).1.pchome = [] ∧
          "pchome" ∈ (searchAllPlatforms pc mo sh).2)
    ∧ (isSearchError mo = true →
        (searchAllPlatforms pc mo sh).1.momo = [] ∧
          "momo" ∈ (searchAllPlatforms pc mo sh).2)
    ∧ (isSearchError sh = true →
        (searchAllPlatforms pc mo sh).1.shopee = [] ∧
          "shopee" ∈ (searchAllPlatforms pc mo sh).2)
    ∧ (sortedProducts (searchAllPlatforms pc mo sh).1).Perm
        (okList pc ++ okList mo ++ okList sh)
    ∧ (sortedProducts (searchAllPlatforms pc mo sh).1).Pairwise
        (fun a b => a.price ≤ b.price)
    ∧ (okList pc ++ okList mo ++ okList sh ≠ [] →
        formatMultiPlatformResponse (searchAllPlatforms pc mo sh).1 k ≠
          MultiPlatformResponse.notFound k) := by
  have hok : ∀ r : Except String (List MPProduct),
      isSearchError r = true → okList r = [] := by
    intro r hr
    cases r with
    | ok l => cases hr
    | error e => rfl
  refine ⟨?_, ?_, ?_, ?_, ?_, ?_, ?_⟩
  · cases hpc : isSearchError pc <;> cases hmo : isSearchError mo <;>
      cases hsh : isSearchError sh <;>
      simp_all [searchAllPlatforms]
  · intro hpc
    exact ⟨hok pc hpc, by simp [searchAllPlatforms, hpc]⟩
  · intro hmo
    exact ⟨hok mo hmo, by simp [searchAllPlatforms, hmo]⟩
  · intro hsh
    exact ⟨hok sh hsh, by simp [searchAllPlatforms, hsh]⟩
  · exact List.mergeSort_perm _ _
  · refine List.Pairwise.imp (fun hab => of_decide_eq_true hab) ?_
    exact List.sorted_mergeSort
      (fun a b c h1 h2 => by
        simp only [decide_eq_true_eq] at h1 h2 ⊢
        omega)
      (fun a b => by
        rcases Nat.le_total a.price b.price with hab | hab <;> simp [hab])
      (allProducts (searchAllPlatforms pc mo sh).1)
  · intro hne
    unfold formatMultiPlatformResponse
    rw [if_neg (by rw [List.isEmpty_iff]; exact hne)]
    intro habs
    exact MultiPlatformResponse.noConfusion habs

theorem C6_partial_failure_witness :
    (searchAllPlatforms (.error "timeout")
        (.ok [⟨"MOMO 購物網", "A", 300, "u1"⟩])
        (.ok [⟨"蝦皮購物", "B", 200, "u2"⟩])).2.length = 1
    ∧ (sortedProducts (searchAllPlatforms (.error "timeout")
        (.ok [⟨"MOMO 購物網", "A", 300, "u1"⟩])
        (.ok [⟨"蝦皮購物", "B", 200, "u2"⟩])).1).Perm
        (okList (.error "timeout") ++ okList (.ok [⟨"MOMO 購物網", "A", 300, "u1"⟩])
          ++ okList (.ok [⟨"蝦皮購物", "B", 200, "u2"⟩]))
    ∧ (sortedProducts (searchAllPlatforms (.error "timeout")
        (.ok [⟨"MOMO 購物網", "A", 300, "u1"⟩])
        (.ok [⟨"蝦皮購物", "B", 200, "u2"⟩])).1).Pairwise
        (fun a b => a.price ≤ b.price) := by
  have h := C6_partial_failure (.error "timeout")
    (.ok [⟨"MOMO 購物網", "A", 300, "u1"⟩])
    (.ok [⟨"蝦皮購物", "B", 200, "u2"⟩]) "鍵盤" (by decide)
  exact ⟨h.1, h.2.2.2.2.1, h.2.2.2.2.2.1⟩

/-- C8.  After recording 15 turns for one user into an initially empty
store, the stored history is exactly the 10 most recent turns in insertion
order (the oldest 5 evicted), and no prefix of the recording ever leaves
more than 10 entries. -/
theorem C8_history_cap (u : String) (hu : u ≠ "") (ts : List HistoryTurn)
    (h15 : ts.length = 15) :
    recordTurns (fun _ => []) u ts u = ts.drop 5
    ∧ ∀ k : Nat, (recordTurns (fun _ => []) u (ts.take k) u).length ≤ 10 := by
  constructor
  · rw [recordTurns_apply u hu ts, histAfter_eq ts [] (by simp)]
    simp [h15]
  · intro k
    rw [recordTurns_apply u hu _, histAfter_eq _ [] (by simp)]
    simp only [List.nil_append, List.length_drop]
    omega

theorem C8_history_cap_witness :
    recordTurns (fun _ => []) "u"
        (List.replicate 15 ⟨"m".data, "PriceTracker"⟩) "u"
      = (List.replicate 15 (⟨"m".data, "PriceTracker"⟩ : HistoryTurn)).drop 5
    ∧ (recordTurns (fun _ => []) "u"
        ((List.replicate 15 (⟨"m".data, "PriceTracker"⟩ : HistoryTurn)).take 12)
        "u").length ≤ 10 :=
  ⟨(C8_history_cap "u" (by decide) _ (by simp)).1,
   (C8_history_cap "u" (by decide) _ (by simp)).2 12⟩

/-- C9.  The rule-based fallback classifier is deterministic: its result
does not depend on the stored context (and, being a pure function of the
message, two runs on the same input agree); when the maximal score is
nonzero the winner is the first entry of the score list (registration
order) attaining the maximum — first-registered wins ties. -/
theorem C9_fallback_deterministic (m : List Char) (ctx ctx' : List HistoryTurn) :
    fallbackAnalysis m ctx = fallbackAnalysis m ctx'
    ∧ (maxScore m ≠ 0 →
        some (fallbackAnalysis m ctx).1 =
          firstWithMax (scoreList m) (maxScore m)) := by
  refine ⟨rfl, fun h => ?_⟩
  have hbp2 : (bestPair m).2 = maxScore m := foldl_pyMaxStep_snd _ _
  obtain ⟨l1, l2, heq, hlt⟩ := foldl_pyMaxStep_first (scoreList m).tail
    ("SmartRecommendation", recommendationScore m)
  have hsl : scoreList m = l1 ++ bestPair m :: l2 := heq
  have hfa : (fallbackAnalysis m ctx).1 = (bestPair m).1 := by
    unfold fallbackAnalysis
    rw [if_neg h]
  rw [hfa]
  unfold firstWithMax
  rw [hsl, find?_first_block l1 l2 (bestPair m) (maxScore m) hbp2
    (fun x hx => hbp2 ▸ hlt x hx)]
  rfl

theorem C9_fallback_deterministic_witness :
    fallbackAnalysis "追蹤 iPhone 價格".data [] =
      fallbackAnalysis "追蹤 iPhone 價格".data [⟨"hi".data, "Gmail"⟩]
    ∧ some (fallbackAnalysis "追蹤 iPhone 價格".data []).1 =
        firstWithMax (scoreList "追蹤 iPhone 價格".data)
          (maxScore "追蹤 iPhone 價格".data) := by
  have hmax : maxScore "追蹤 iPhone 價格".data ≠ 0 := by
    have e1 : recommendationScore "追蹤 iPhone 價格".data = 0 := by
      unfold recommendationScore
      rw [show anyWord srWords1 (lowerAscii "追蹤 iPhone 價格".data) = false from
            by decide,
          show anyWord srWords2 (lowerAscii "追蹤 iPhone 價格".data) = false from
            by decide,
          show containsSub "?".data "追蹤 iPhone 價格".data = false from by decide,
          show containsSub "？".data "追蹤 iPhone 價格".data = false from by decide,
          show containsSub "嗎".data "追蹤 iPhone 價格".data = false from by decide]
      norm_num
    have e2 : priceScore "追蹤 iPhone 價格".data = 0.7 := by
      unfold priceScore
      rw [show anyWord ptWords1 (lowerAscii "追蹤 iPhone 價格".data) = true from
            by decide,
          show anyWord ptWords2 (lowerAscii "追蹤 iPhone 價格".data) = false from
            by decide]
      norm_num
    have e3 : reviewScore "追蹤 iPhone 價格".data = 0 := by
      unfold reviewScore
      rw [show anyWord prWords1 (lowerAscii "追蹤 iPhone 價格".data) = false from
            by decide,
          show anyWord prWords2 (lowerAscii "追蹤 iPhone 價格".data) = false from
            by decide]
      norm_num
    have e4 : financeScore "追蹤 iPhone 價格".data = 0 := by
      unfold financeScore
      rw [show anyWord fiWords1 (lowerAscii "追蹤 iPhone 價格".data) = false from
            by decide,
          show anyWord fiWords2 (lowerAscii "追蹤 iPhone 價格".data) = false from
            by decide]
      norm_num
    have e5 : gmailScore "追蹤 iPhone 價格".data = 0 := by
      unfold gmailScore
      rw [show anyWord gmWords1 (lowerAscii "追蹤 iPhone 價格".data) = false from
            by decide,
          show anyWord gmWords2 (lowerAscii "追蹤 iPhone 價格".data) = false from
            by decide]
      norm_num
    rw [maxScore_eval, e1, e2, e3, e4, e5]
    norm_num [qmax]
  exact ⟨(C9_fallback_deterministic "追蹤 iPhone 價格".data []
      [⟨"hi".data, "Gmail"⟩]).1,
    (C9_fallback_deterministic "追蹤 iPhone 價格".data []
      [⟨"hi".data, "Gmail"⟩]).2 hmax⟩

/-! ## Helper lemmas for the extraction round-trip (C3) -/

theorem goodChar_cases (c : Char) (h : goodProductChar c = true) :
    asciiAlnum c = true ∨ c = ' ' := by
  unfold goodProductChar at h
  rcases Bool.or_eq_true_iff.mp h with h1 | h2
  · exact Or.inl h1
  · exact Or.inr (of_decide_eq_true h2)

theorem good_ne (c : Char) (h : goodProductChar c = true) (x : Char)
    (hx : goodProductChar x = false) : c ≠ x := by
  intro he
  rw [he, hx] at h
  cases h

theorem not_mem_of_bad (x : Char) (hx : goodProductChar x = false)
    (l : List Char) (hl : l.all goodProductChar = true) : x ∉ l := by
  intro hm
  have := List.all_eq_true.mp hl x hm
  rw [hx] at this
  cases this

theorem alnum_ne (c : Char) (h : asciiAlnum c = true) (x : Char)
    (hx : asciiAlnum x = false) : c ≠ x := by
  intro he
  rw [he, hx] at h
  cases h

theorem pySpace_eq_of_good (c : Char) (h : goodProductChar c = true) :
    pySpace c = decide (c = ' ') := by
  by_cases hc : c = ' '
  · subst hc; decide
  · rw [decide_eq_false hc]
    rcases goodChar_cases c h with ha | ha
    · unfold pySpace
      rw [decide_eq_false hc,
        decide_eq_false (alnum_ne c ha '\t' (by decide)),
        decide_eq_false (alnum_ne c ha '\n' (by decide)),
        decide_eq_false (alnum_ne c ha '\r' (by decide)),
        decide_eq_false (alnum_ne c ha '\x0b' (by decide)),
        decide_eq_false (alnum_ne c ha '\x0c' (by decide))]
      rfl
    · exact absurd ha hc

theorem isDigit_ne (c : Char) (h : c.isDigit = true) (x : Char)
    (hx : x.isDigit = false) : c ≠ x := by
  intro he
  rw [he, hx] at h
  cases h

theorem isDigit_not_space (c : Char) (h : c.isDigit = true) :
    pySpace c = false := by
  unfold pySpace
  rw [decide_eq_false (isDigit_ne c h ' ' (by decide)),
    decide_eq_false (isDigit_ne c h '\t' (by decide)),
    decide_eq_false (isDigit_ne c h '\n' (by decide)),
    decide_eq_false (isDigit_ne c h '\r' (by decide)),
    decide_eq_false (isDigit_ne c h '\x0b' (by decide)),
    decide_eq_false (isDigit_ne c h '\x0c' (by decide))]
  rfl

theorem digitChar_isDigit (d : Nat) (h : d < 10) :
    (digitChar d).isDigit = true := by
  interval_cases d <;> decide

theorem digitChar_toNat (d : Nat) (h : d < 10) :
    (digitChar d).toNat - 48 = d := by
  interval_cases d <;> decide

theorem natDigitsRev_eq (fuel n : Nat) (h : n ≤ fuel) :
    natDigitsRev fuel n = (Nat.digits 10 n).map digitChar := by
  induction fuel generalizing n with
  | zero =>
    have : n = 0 := by omega
    subst this
    simp [natDigitsRev]
  | succ fuel ih =>
    cases n with
    | zero => simp [natDigitsRev]
    | succ m =>
      have hdiv : (m + 1) / 10 ≤ fuel := by
        have := Nat.div_lt_self (Nat.succ_pos m) (by norm_num : 1 < 10)
        omega
      show digitChar ((m + 1) % 10) :: natDigitsRev fuel ((m + 1) / 10) = _
      rw [ih ((m + 1) / 10) hdiv,
        Nat.digits_def' (by norm_num : 1 < 10) (Nat.succ_pos m)]
      rfl

theorem natDigits_eq (n : Nat) :
    natDigits n = ((Nat.digits 10 n).map digitChar).reverse := by
  unfold natDigits
  rw [natDigitsRev_eq n n (le_refl n)]

theorem natDigits_all_isDigit (n : Nat) :
    ∀ c ∈ natDigits n, c.isDigit = true := by
  intro c hc
  rw [natDigits_eq, List.mem_reverse, List.mem_map] at hc
  obtain ⟨d, hd, rfl⟩ := hc
  exact digitChar_isDigit d (Nat.digits_lt_base (by norm_num) hd)

theorem natDigits_ne_nil (n : Nat) (h : n ≠ 0) : natDigits n ≠ [] := by
  rw [natDigits_eq]
  simp [Nat.digits_ne_nil_iff_ne_zero, h]

theorem foldl_digitChar (ds : List Nat) (hds : ∀ d ∈ ds, d < 10) :
    ∀ a : Nat,
      List.foldl (fun acc c => 10 * acc + (c.toNat - 48)) a
        ((ds.map digitChar).reverse)
      = a * 10 ^ ds.length + Nat.ofDigits 10 ds := by
  induction ds with
  | nil => intro a; simp
  | cons d ds ih =>
    intro a
    rw [List.map_cons, List.reverse_cons, List.foldl_append,
      ih (fun x hx => hds x (List.mem_cons_of_mem d hx)) a]
    simp only [List.foldl_cons, List.foldl_nil]
    rw [digitChar_toNat d (hds d (List.mem_cons_self d ds)), Nat.ofDigits_cons,
      List.length_cons, pow_succ]
    ring

theorem parseDigits_natDigits (n : Nat) : parseDigits (natDigits n) = n := by
  rw [natDigits_eq]
  unfold parseDigits
  rw [foldl_digitChar (Nat.digits 10 n)
    (fun d hd => Nat.digits_lt_base (by norm_num) hd) 0]
  rw [Nat.ofDigits_digits]
  ring

theorem takeWhile_isDigit_all (l : List Char) (h : ∀ c ∈ l, c.isDigit = true) :
    l.takeWhile Char.isDigit = l := by
  induction l with
  | nil => rfl
  | cons c r ih =>
    rw [List.takeWhile_cons_of_pos (h c (List.mem_cons_self c r)),
      ih (fun x hx => h x (List.mem_cons_of_mem c hx))]

theorem wsDigits_cons_space (l : List Char) :
    wsDigits (' ' :: l) = (wsDigits l).map (· + 1) := by
  simp only [wsDigits]
  rw [List.takeWhile_cons_of_pos (by decide)]
  simp only [List.length_cons, List.drop_succ_cons]
  by_cases hds :
      ((l.drop (l.takeWhile pySpace).length).takeWhile Char.isDigit).isEmpty = true
  · rw [if_pos hds, if_pos hds]
    rfl
  · rw [if_neg hds, if_neg hds, Option.map_some']
    congr 1
    omega

theorem wsDigits_none_of_head (c : Char) (l : List Char)
    (hsp : pySpace c = false) (hdig : c.isDigit = false) :
    wsDigits (c :: l) = none := by
  simp only [wsDigits]
  rw [List.takeWhile_cons_of_neg (by simp [hsp]), List.length_nil,
    List.drop_zero, List.takeWhile_cons_of_neg (by simp [hdig])]
  rfl

theorem wsDigits_all_digits (ds : List Char) (hne : ds ≠ [])
    (hd : ∀ c ∈ ds, c.isDigit = true) :
    wsDigits ds = some ds.length := by
  cases ds with
  | nil => cases hne rfl
  | cons d ds' =>
    simp only [wsDigits]
    rw [List.takeWhile_cons_of_neg
      (by simp [isDigit_not_space d (hd d (List.mem_cons_self d ds'))])]
    rw [List.length_nil, List.drop_zero, takeWhile_isDigit_all _ hd]
    rw [if_neg (by simp), Nat.zero_add]

theorem trackTail_wsDigits (n : Nat) : wsDigits (trackTail n) = none := by
  unfold trackTail
  rw [wsDigits_cons_space, wsDigits_none_of_head '目' _ (by decide) (by decide)]
  rfl

theorem wsDigits_none_append (tail : List Char) (htail : wsDigits tail = none) :
    ∀ s : List Char, s.all goodProductChar = true →
      ((s.dropWhile (fun x => x = ' ')).headD '目').isDigit = false →
      wsDigits (s ++ tail) = none := by
  intro s
  induction s with
  | nil => intro _ _; simpa using htail
  | cons c s' ih =>
    intro hg hh
    rw [List.all_cons, Bool.and_eq_true] at hg
    by_cases hsp : c = ' '
    · subst hsp
      rw [List.cons_append, wsDigits_cons_space, ih hg.2 ?_]
      · rfl
      · rwa [List.dropWhile_cons_of_pos (by decide)] at hh
    · have hdig : c.isDigit = false := by
        rwa [List.dropWhile_cons_of_neg (by simp [hsp]), List.headD_cons] at hh
      rw [List.cons_append]
      exact wsDigits_none_of_head c _
        (by rw [pySpace_eq_of_good c hg.1, decide_eq_false hsp]) hdig

theorem tryPriceMatch_cons (c : Char) (r : List Char) :
    tryPriceMatch (c :: r) =
      (if c = '目' then matchAfterMu r
       else if c = '價' then matchAfterJia r
       else if c = '元' then (wsDigits r).map (· + 1)
       else if c = '$' then (wsDigits r).map (· + 1)
       else if c = 'N' then matchAfterN r
       else none) := rfl

theorem matchAfterN_cons (c1 : Char) (r1 : List Char) :
    matchAfterN (c1 :: r1) = if c1 = 'T' then matchAfterNT r1 else none := rfl

theorem matchAfterNT_cons (c2 : Char) (r2 : List Char) :
    matchAfterNT (c2 :: r2) =
      if c2 = '$' then (wsDigits r2).map (· + 3)
      else (wsDigits (c2 :: r2)).map (· + 2) := rfl

theorem tryPriceMatch_not_starter (c : Char) (r : List Char)
    (h1 : c ≠ '目') (h2 : c ≠ '價') (h3 : c ≠ '元') (h4 : c ≠ '$')
    (h5 : c ≠ 'N') : tryPriceMatch (c :: r) = none := by
  rw [tryPriceMatch_cons, if_neg h1, if_neg h2, if_neg h3, if_neg h4,
    if_neg h5]

theorem tryPriceMatch_N_track (s' : List Char) (n : Nat)
    (hg : s'.all goodProductChar = true)
    (hh : match s' with
          | c1 :: r1 => (decide (c1 = 'T') &&
              ((r1.dropWhile (fun x => x = ' ')).headD '目').isDigit) = false
          | [] => True) :
    tryPriceMatch ('N' :: (s' ++ trackTail n)) = none := by
  rw [tryPriceMatch_cons, if_neg (by decide), if_neg (by decide),
    if_neg (by decide), if_neg (by decide), if_pos rfl]
  cases s' with
  | nil =>
    rw [List.nil_append, trackTail, matchAfterN_cons, if_neg (by decide)]
  | cons c1 s'' =>
    rw [List.all_cons, Bool.and_eq_true] at hg
    rw [List.cons_append, matchAfterN_cons]
    by_cases hT : c1 = 'T'
    · rw [if_pos hT]
      subst hT
      have hdig : ((s''.dropWhile (fun x => x = ' ')).headD '目').isDigit
          = false := by
        simpa using hh
      have hws : wsDigits (s'' ++ trackTail n) = none :=
        wsDigits_none_append (trackTail n) (trackTail_wsDigits n) s'' hg.2 hdig
      cases s'' with
      | nil =>
        rw [List.nil_append] at hws ⊢
        rw [trackTail] at hws ⊢
        rw [matchAfterNT_cons, if_neg (by decide), hws]
        rfl
      | cons c2 s''' =>
        rw [List.all_cons, Bool.and_eq_true] at hg
        rw [List.cons_append] at hws ⊢
        rw [matchAfterNT_cons, if_neg (good_ne c2 hg.2.1 '$' (by decide)), hws]
        rfl
    · rw [if_neg hT]

theorem ntHazard_cons (c : Char) (r : List Char) :
    ntHazard (c :: r) =
      ((decide (c = 'N') &&
        (match r with
         | c1 :: r1 => decide (c1 = 'T') &&
             ((r1.dropWhile (fun x => x = ' ')).headD '目').isDigit
         | [] => false))
      || ntHazard r) := rfl

theorem priceSubGo_succ_cons (f : Nat) (c : Char) (r : List Char) :
    priceSubGo (f + 1) (c :: r) =
      match tryPriceMatch (c :: r) with
      | some n => priceSubGo f (r.drop (n - 1))
      | none => c :: priceSubGo f r := rfl

theorem priceSubGo_nil (f : Nat) : priceSubGo f [] = [] := by
  cases f <;> rfl

theorem priceSubGo_cons_none (f : Nat) (c : Char) (r : List Char)
    (h : tryPriceMatch (c :: r) = none) :
    priceSubGo (f + 1) (c :: r) = c :: priceSubGo f r := by
  rw [priceSubGo_succ_cons, h]

theorem priceSubGo_cons_some (f : Nat) (c : Char) (r : List Char) (m : Nat)
    (h : tryPriceMatch (c :: r) = some m) :
    priceSubGo (f + 1) (c :: r) = priceSubGo f (r.drop (m - 1)) := by
  rw [priceSubGo_succ_cons, h]

theorem priceSubGo_track (n : Nat) (hn : n ≠ 0) :
    ∀ (s : List Char) (f : Nat), (s ++ trackTail n).length ≤ f →
      s.all goodProductChar = true → ntHazard s = false →
      priceSubGo f (s ++ trackTail n) = s ++ [' '] := by
  intro s
  induction s with
  | nil =>
    intro f hf _ _
    simp only [List.nil_append] at hf ⊢
    rw [trackTail] at hf ⊢
    simp only [List.length_cons] at hf
    cases f with
    | zero => omega
    | succ f1 =>
      rw [priceSubGo_cons_none _ _ _
        (tryPriceMatch_not_starter ' ' _ (by decide) (by decide) (by decide)
          (by decide) (by decide))]
      cases f1 with
      | zero => omega
      | succ f2 =>
        have hmatch : tryPriceMatch
            ('目' :: '標' :: '價' :: '格' :: ' ' :: natDigits n)
            = some ((natDigits n).length + 1 + 4) := by
          rw [tryPriceMatch_cons, if_pos rfl,
            show matchAfterMu ('標' :: '價' :: '格' :: ' ' :: natDigits n)
              = (wsDigits (' ' :: natDigits n)).map (· + 4) from by
                rw [matchAfterMu]; rw [if_pos (by decide)]]
          rw [wsDigits_cons_space,
            wsDigits_all_digits (natDigits n) (natDigits_ne_nil n hn)
              (natDigits_all_isDigit n)]
          rfl
        rw [priceSubGo_cons_some _ _ _ _ hmatch]
        rw [show (natDigits n).length + 1 + 4 - 1
            = ('標' :: '價' :: '格' :: ' ' :: natDigits n).length from by
          simp only [List.length_cons]; omega]
        rw [List.drop_length, priceSubGo_nil]
  | cons c s' ih =>
    intro f hf hg hhz
    rw [List.all_cons, Bool.and_eq_true] at hg
    rw [ntHazard_cons, Bool.or_eq_false_iff] at hhz
    have hnone : tryPriceMatch (c :: (s' ++ trackTail n)) = none := by
      by_cases hN : c = 'N'
      · subst hN
        apply tryPriceMatch_N_track s' n hg.2
        have h1 := hhz.1
        cases s' with
        | nil => trivial
        | cons c1 r1 => simpa using h1
      · exact tryPriceMatch_not_starter c _ (good_ne c hg.1 '目' (by decide))
          (good_ne c hg.1 '價' (by decide)) (good_ne c hg.1 '元' (by decide))
          (good_ne c hg.1 '$' (by decide)) hN
    rw [List.cons_append] at hf ⊢
    cases f with
    | zero => simp only [List.length_cons] at hf; omega
    | succ f1 =>
      rw [priceSubGo_cons_none f1 _ _ hnone,
        ih f1 (by simp only [List.length_cons] at hf; omega) hg.2 hhz.2]
      rfl

theorem priceSub_track (p : List Char) (n : Nat) (hn : n ≠ 0)
    (hg : p.all goodProductChar = true) (hhz : ntHazard p = false) :
    priceSub (trackMessage p n) = '追' :: '蹤' :: ' ' :: (p ++ [' ']) := by
  unfold priceSub trackMessage
  rw [show ('追' :: '蹤' :: ' ' :: (p ++ trackTail n)).length
      = ((p ++ trackTail n).length + 2) + 1 from by
    simp only [List.length_cons]]
  rw [priceSubGo_cons_none _ _ _ (tryPriceMatch_not_starter '追' _ (by decide)
    (by decide) (by decide) (by decide) (by decide))]
  rw [show (p ++ trackTail n).length + 2
      = ((p ++ trackTail n).length + 1) + 1 from rfl]
  rw [priceSubGo_cons_none _ _ _ (tryPriceMatch_not_starter '蹤' _ (by decide)
    (by decide) (by decide) (by decide) (by decide))]
  rw [priceSubGo_cons_none _ _ _ (tryPriceMatch_not_starter ' ' _ (by decide)
    (by decide) (by decide) (by decide) (by decide))]
  rw [priceSubGo_track n hn p _ (le_refl _) hg hhz]

theorem replaceAllGo_nil (pat rep : List Char) (f : Nat) :
    replaceAllGo pat rep f [] = [] := by
  cases f <;> rfl

theorem replaceAllGo_succ_cons (pat rep : List Char) (f : Nat) (c : Char)
    (r : List Char) :
    replaceAllGo pat rep (f + 1) (c :: r) =
      if startsWith pat (c :: r) && !pat.isEmpty then
        rep ++ replaceAllGo pat rep f (r.drop (pat.length - 1))
      else c :: replaceAllGo pat rep f r := rfl

theorem replaceAllGo_notMem (ph : Char) (pt rep : List Char) :
    ∀ (l : List Char) (f : Nat), l.length ≤ f → ph ∉ l →
      replaceAllGo (ph :: pt) rep f l = l := by
  intro l
  induction l with
  | nil => intro f _ _; exact replaceAllGo_nil _ _ _
  | cons c r ih =>
    intro f hf hmem
    cases f with
    | zero => simp only [List.length_cons] at hf; omega
    | succ f' =>
      have hcne : ph ≠ c := fun he => hmem (he ▸ List.mem_cons_self c r)
      rw [replaceAllGo_succ_cons]
      rw [show startsWith (ph :: pt) (c :: r) = false from by
        show ((ph = c : Bool) && startsWith pt r) = false
        rw [decide_eq_false hcne]
        rfl]
      rw [if_neg (by simp)]
      rw [ih f' (by simp only [List.length_cons] at hf; omega)
        (fun hm => hmem (List.mem_cons_of_mem c hm))]

theorem replaceAll_notMem (ph : Char) (pt rep l : List Char) (h : ph ∉ l) :
    replaceAll (ph :: pt) rep l = l :=
  replaceAllGo_notMem ph pt rep l l.length (le_refl _) h

theorem replaceAll_zhui (p : List Char) (hp : '追' ∉ (' ' :: (p ++ [' ']))) :
    replaceAll ['追', '蹤'] [' '] ('追' :: '蹤' :: ' ' :: (p ++ [' ']))
      = ' ' :: ' ' :: (p ++ [' ']) := by
  unfold replaceAll
  rw [show ('追' :: '蹤' :: ' ' :: (p ++ [' '])).length
      = ((p ++ [' ']).length + 2) + 1 from by simp only [List.length_cons]]
  rw [replaceAllGo_succ_cons]
  rw [if_pos (by simp [startsWith])]
  rw [show (['追', '蹤'] : List Char).length - 1 = 1 from rfl]
  rw [show List.drop 1 ('蹤' :: ' ' :: (p ++ [' '])) = ' ' :: (p ++ [' '])
    from rfl]
  rw [replaceAllGo_notMem '追' ['蹤'] [' '] _ ((p ++ [' ']).length + 2)
    (by simp only [List.length_cons]; omega) hp]
  rfl

theorem removeKeywords_track (p : List Char)
    (hg : p.all goodProductChar = true) :
    removeKeywords ('追' :: '蹤' :: ' ' :: (p ++ [' ']))
      = ' ' :: ' ' :: (p ++ [' ']) := by
  have hall : (' ' :: ' ' :: (p ++ [' '])).all goodProductChar = true := by
    simp [List.all_cons, List.all_append, hg,
      show goodProductChar ' ' = true from by decide]
  have hA : '追' ∉ (' ' :: (p ++ [' '])) := by
    have : (' ' :: (p ++ [' '])).all goodProductChar = true := by
      simp [List.all_cons, List.all_append, hg,
        show goodProductChar ' ' = true from by decide]
    exact not_mem_of_bad '追' (by decide) _ this
  unfold removeKeywords removeKw
  simp only [List.foldl_cons, List.foldl_nil]
  rw [replaceAll_zhui p hA,
    replaceAll_notMem '監' _ _ _ (not_mem_of_bad '監' (by decide) _ hall),
    replaceAll_notMem '通' _ _ _ (not_mem_of_bad '通' (by decide) _ hall),
    replaceAll_notMem '降' _ _ _ (not_mem_of_bad '降' (by decide) _ hall),
    replaceAll_notMem '請' _ _ _ (not_mem_of_bad '請' (by decide) _ hall),
    replaceAll_notMem '幫' _ _ _ (not_mem_of_bad '幫' (by decide) _ hall),
    replaceAll_notMem '查' _ _ _ (not_mem_of_bad '查' (by decide) _ hall),
    replaceAll_notMem '查' _ _ _ (not_mem_of_bad '查' (by decide) _ hall),
    replaceAll_notMem '移' _ _ _ (not_mem_of_bad '移' (by decide) _ hall),
    replaceAll_notMem '刪' _ _ _ (not_mem_of_bad '刪' (by decide) _ hall),
    replaceAll_notMem '取' _ _ _ (not_mem_of_bad '取' (by decide) _ hall)]

theorem punctClear_good : ∀ l : List Char, l.all goodProductChar = true →
    punctClear l = l := by
  intro l
  induction l with
  | nil => intro _; rfl
  | cons c r ih =>
    intro h
    rw [List.all_cons, Bool.and_eq_true] at h
    have h8 : (c = '，' || c = ',' || c = '。' || c = '.' ||
        c = '！' || c = '!' || c = '？' || c = '?') = false := by
      rw [decide_eq_false (good_ne c h.1 '，' (by decide)),
        decide_eq_false (good_ne c h.1 ',' (by decide)),
        decide_eq_false (good_ne c h.1 '。' (by decide)),
        decide_eq_false (good_ne c h.1 '.' (by decide)),
        decide_eq_false (good_ne c h.1 '！' (by decide)),
        decide_eq_false (good_ne c h.1 '!' (by decide)),
        decide_eq_false (good_ne c h.1 '？' (by decide)),
        decide_eq_false (good_ne c h.1 '?' (by decide))]
      rfl
    show (if c = '，' || c = ',' || c = '。' || c = '.' ||
        c = '！' || c = '!' || c = '？' || c = '?' then ' ' else c)
      :: punctClear r = c :: r
    rw [h8, if_neg (by decide), ih h.2]

theorem collapseWs_cons2 (c1 c2 : Char) (r : List Char) :
    collapseWs (c1 :: c2 :: r) =
      if pySpace c1 && pySpace c2 then collapseWs (c2 :: r)
      else (if pySpace c1 then ' ' else c1) :: collapseWs (c2 :: r) := rfl

theorem collapseWs_single : ∀ p : List Char,
    p.all goodProductChar = true → noDoubleSpace p = true →
    p.getLast? ≠ some ' ' → collapseWs (p ++ [' ']) = p ++ [' '] := by
  intro p
  induction p with
  | nil => intro _ _ _; rfl
  | cons c p' ih =>
    intro hg hdbl hlast
    rw [List.all_cons, Bool.and_eq_true] at hg
    cases p' with
    | nil =>
      have hc : c ≠ ' ' := fun he => hlast (by rw [he]; rfl)
      have hpc : pySpace c = false := by
        rw [pySpace_eq_of_good c hg.1, decide_eq_false hc]
      show collapseWs (c :: [' ']) = c :: [' ']
      rw [collapseWs_cons2,
        show (pySpace c && pySpace ' ') = false from by rw [hpc]; rfl,
        if_neg (by decide), hpc, if_neg (by decide)]
      rfl
    | cons c2 p'' =>
      have hnd := hdbl
      rw [show noDoubleSpace (c :: c2 :: p'')
          = (!(c = ' ' && c2 = ' ') && noDoubleSpace (c2 :: p'')) from rfl,
        Bool.and_eq_true] at hnd
      have hg2 : goodProductChar c2 = true := by
        have h2 := hg.2
        rw [List.all_cons, Bool.and_eq_true] at h2
        exact h2.1
      have hcond : (pySpace c && pySpace c2) = false := by
        rw [pySpace_eq_of_good c hg.1, pySpace_eq_of_good c2 hg2]
        have hb := hnd.1
        rwa [Bool.not_eq_true'] at hb
      have hemit : (if pySpace c then ' ' else c) = c := by
        by_cases hce : c = ' '
        · subst hce; rfl
        · rw [pySpace_eq_of_good c hg.1, decide_eq_false hce]
          rfl
      have hlast' : (c2 :: p'').getLast? ≠ some ' ' := by
        rwa [List.getLast?_cons_cons] at hlast
      show collapseWs (c :: c2 :: (p'' ++ [' '])) = c :: c2 :: p'' ++ [' ']
      rw [collapseWs_cons2, hcond, if_neg (by decide), hemit]
      rw [show c2 :: (p'' ++ [' ']) = (c2 :: p'') ++ [' '] from rfl]
      rw [ih hg.2 hnd.2 hlast']
      rfl

theorem collapseWs_lead2 (p : List Char)
    (hg : p.all goodProductChar = true) (hne : p ≠ [])
    (hhead : p.head? ≠ some ' ') (hdbl : noDoubleSpace p = true)
    (hlast : p.getLast? ≠ some ' ') :
    collapseWs (' ' :: ' ' :: (p ++ [' '])) = ' ' :: (p ++ [' ']) := by
  cases p with
  | nil => cases hne rfl
  | cons c p' =>
    have hgc : goodProductChar c = true := by
      have := hg
      rw [List.all_cons, Bool.and_eq_true] at this
      exact this.1
    have hc : c ≠ ' ' := fun he => hhead (by rw [he]; rfl)
    have hpc : pySpace c = false := by
      rw [pySpace_eq_of_good c hgc, decide_eq_false hc]
    rw [collapseWs_cons2, if_pos (by decide)]
    rw [List.cons_append, collapseWs_cons2]
    rw [show (pySpace ' ' && pySpace c) = false from by rw [hpc]; rfl]
    rw [if_neg (by decide),
      show (if pySpace ' ' then ' ' else ' ') = ' ' from rfl]
    rw [show c :: (p' ++ [' ']) = (c :: p') ++ [' '] from rfl]
    rw [collapseWs_single (c :: p') hg hdbl hlast]

theorem pyStrip_lead (p : List Char) (hg : p.all goodProductChar = true)
    (hne : p ≠ []) (hhead : p.head? ≠ some ' ')
    (hlast : p.getLast? ≠ some ' ') :
    pyStrip (' ' :: (p ++ [' '])) = p := by
  cases p with
  | nil => cases hne rfl
  | cons c p' =>
    rw [List.all_cons, Bool.and_eq_true] at hg
    have hc : c ≠ ' ' := fun he => hhead (by rw [he]; rfl)
    have hpc : pySpace c = false := by
      rw [pySpace_eq_of_good c hg.1, decide_eq_false hc]
    unfold pyStrip
    rw [List.dropWhile_cons_of_pos (by decide)]
    rw [List.cons_append, List.dropWhile_cons_of_neg (by simp [hpc])]
    rw [show (c :: (p' ++ [' '])).reverse = ' ' :: (p'.reverse ++ [c]) from by
      simp]
    rw [List.dropWhile_cons_of_pos (by decide)]
    cases hp' : p'.reverse with
    | nil =>
      have hpnil : p' = [] := by simpa using congrArg List.reverse hp'
      subst hpnil
      simp only [List.nil_append]
      rw [List.dropWhile_cons_of_neg (by simp [hpc])]
      rfl
    | cons q qr =>
      have hqmem : q ∈ p' := by
        have : q ∈ p'.reverse := by rw [hp']; exact List.mem_cons_self q qr
        exact List.mem_reverse.mp this
      have hqgood : goodProductChar q = true :=
        List.all_eq_true.mp hg.2 q hqmem
      have hqlast : (c :: p').getLast? = some q := by
        rw [← List.head?_reverse, List.reverse_cons, hp']
        rfl
      have hq : q ≠ ' ' := fun he => hlast (by rw [hqlast, he])
      have hpq : pySpace q = false := by
        rw [pySpace_eq_of_good q hqgood, decide_eq_false hq]
      rw [List.cons_append, List.dropWhile_cons_of_neg (by simp [hpq])]
      rw [show (q :: (qr ++ [c])).reverse = c :: (q :: qr).reverse from by
        simp]
      rw [← hp', List.reverse_reverse]

theorem extractProductName_track (p : List Char) (n : Nat) (hn : n ≠ 0)
    (hg : p.all goodProductChar = true) (hlen : 2 < p.length)
    (hhead : p.head? ≠ some ' ') (hlast : p.getLast? ≠ some ' ')
    (hdbl : noDoubleSpace p = true) (hhz : ntHazard p = false) :
    extractProductName (trackMessage p n) = some p := by
  have hne : p ≠ [] := by
    intro he
    rw [he] at hlen
    simp at hlen
  unfold extractProductName
  dsimp only
  rw [priceSub_track p n hn hg hhz, removeKeywords_track p hg]
  rw [punctClear_good _ (by
    simp [List.all_cons, List.all_append, hg,
      show goodProductChar ' ' = true from by decide])]
  rw [collapseWs_lead2 p hg hne hhead hdbl hlast]
  rw [pyStrip_lead p hg hne hhead hlast]
  rw [if_pos hlen]

theorem matchTargetP1_ne (x : Char) (rest : List Char) (hx : x ≠ '目') :
    matchTargetP1 (x :: rest) = none := by
  unfold matchTargetP1
  rw [if_neg ?_]
  intro hT
  rw [show "目標價格".data = ['目', '標', '價', '格'] from rfl] at hT
  rw [show startsWith ['目', '標', '價', '格'] (x :: rest)
      = ((('目' : Char) = x : Bool) && startsWith ['標', '價', '格'] rest)
    from rfl, decide_eq_false (fun he => hx he.symm)] at hT
  cases hT

theorem searchFirst_cons (f : List Char → Option Nat) (c : Char)
    (r : List Char) :
    searchFirst f (c :: r) =
      match f (c :: r) with
      | some v => some v
      | none => searchFirst f r := rfl

theorem searchFirst_skip (f : List Char → Option Nat) (c : Char)
    (r : List Char) (h : f (c :: r) = none) :
    searchFirst f (c :: r) = searchFirst f r := by
  rw [searchFirst_cons, h]

theorem matchTargetP1_hit (n : Nat) (hn : n ≠ 0) :
    matchTargetP1 ('目' :: '標' :: '價' :: '格' :: ' ' :: natDigits n)
      = some n := by
  unfold matchTargetP1
  rw [if_pos (by simp [startsWith, String.data])]
  rw [show ('目' :: '標' :: '價' :: '格' :: ' ' :: natDigits n).drop 4
      = ' ' :: natDigits n from rfl]
  unfold wsColonDigits
  rw [List.dropWhile_cons_of_pos (by decide)]
  cases hds : natDigits n with
  | nil => exact absurd hds (natDigits_ne_nil n hn)
  | cons d ds' =>
    have hdall : ∀ c ∈ natDigits n, c.isDigit = true := natDigits_all_isDigit n
    have hd : d.isDigit = true := hdall d (by rw [hds]; exact List.mem_cons_self d ds')
    rw [List.dropWhile_cons_of_neg (by simp [isDigit_not_space d hd])]
    dsimp only
    rw [decide_eq_false (isDigit_ne d hd ':' (by decide)),
      decide_eq_false (isDigit_ne d hd '：' (by decide))]
    rw [if_neg (show ¬((false || false : Bool) = true) from by decide)]
    rw [List.dropWhile_cons_of_neg (by simp [isDigit_not_space d hd])]
    rw [show List.takeWhile Char.isDigit (d :: ds')
        = d :: ds' from by
      rw [← hds]
      exact takeWhile_isDigit_all _ hdall]
    rw [if_neg (by simp)]
    rw [← hds, parseDigits_natDigits]

theorem searchFirstP1_suffix (n : Nat) (hn : n ≠ 0) :
    ∀ s : List Char, s.all goodProductChar = true →
      searchFirst matchTargetP1 (s ++ trackTail n) = some n := by
  intro s
  induction s with
  | nil =>
    intro _
    rw [List.nil_append, trackTail]
    rw [searchFirst_skip _ _ _ (matchTargetP1_ne ' ' _ (by decide))]
    rw [searchFirst_cons, matchTargetP1_hit n hn]
  | cons c s' ih =>
    intro hg
    rw [List.all_cons, Bool.and_eq_true] at hg
    rw [List.cons_append,
      searchFirst_skip _ _ _ (matchTargetP1_ne c _ (good_ne c hg.1 '目' (by decide)))]
    exact ih hg.2

theorem firstAcceptedPrice_cons_hit (f : List Char → Option Nat)
    (fs : List (List Char → Option Nat)) (msg : List Char) (v : Nat)
    (h : searchFirst f msg = some v) (hv : 100 ≤ v) :
    firstAcceptedPrice (f :: fs) msg = some v := by
  unfold firstAcceptedPrice
  rw [h]
  dsimp only
  rw [if_pos hv]

theorem extractTargetPrice_track (p : List Char) (n : Nat)
    (hg : p.all goodProductChar = true) (hn : 100 ≤ n) :
    extractTargetPrice (trackMessage p n) = some n := by
  have hn0 : n ≠ 0 := by omega
  have hsearch : searchFirst matchTargetP1 (trackMessage p n) = some n := by
    unfold trackMessage
    rw [searchFirst_skip _ _ _ (matchTargetP1_ne '追' _ (by decide)),
      searchFirst_skip _ _ _ (matchTargetP1_ne '蹤' _ (by decide)),
      searchFirst_skip _ _ _ (matchTargetP1_ne ' ' _ (by decide))]
    exact searchFirstP1_suffix n hn0 p hg
  unfold extractTargetPrice targetPricePatterns
  exact firstAcceptedPrice_cons_hit _ _ _ n hsearch hn

/-- C3 (counterexample).  The claim fails as stated: the alphanumeric
product `TV` with N = 5000 yields `productName = None`, because
`_extract_product_name` rejects any cleaned name of length ≤ 2
(`if len(clean) > 2`). -/
theorem C3_roundtrip_counterexample :
    extractProductName (trackMessage "TV".data 5000) = none := by decide

/-- C3 (amended).  For every product over ASCII alphanumerics and single
separating spaces — trimmed, longer than 2 characters, and containing no
occurrence of `NT` followed (after spaces) by a digit — and every N ≥ 100,
extraction from the constructed message `追蹤 {product} 目標價格 {N}`
returns exactly the trimmed product and N.  (The length bound and the `NT`
exclusion are forced: `_extract_product_name` rejects cleaned names of
length ≤ 2, and the price regex `NT\$?\s*\d+` deletes `NT`-digit spans
from the product.) -/
theorem C3_extraction_roundtrip (p : List Char) (n : Nat)
    (hg : p.all goodProductChar = true) (hlen : 2 < p.length)
    (hhead : p.head? ≠ some ' ') (hlast : p.getLast? ≠ some ' ')
    (hdbl : noDoubleSpace p = true) (hhz : ntHazard p = false)
    (hn : 100 ≤ n) :
    extractProductName (trackMessage p n) = some p ∧
    extractTargetPrice (trackMessage p n) = some n :=
  ⟨extractProductName_track p n (by omega) hg hlen hhead hlast hdbl hhz,
   extractTargetPrice_track p n hg hn⟩

theorem C3_extraction_roundtrip_witness :
    extractProductName (trackMessage "iPhone 15".data 35000)
      = some "iPhone 15".data ∧
    extractTargetPrice (trackMessage "iPhone 15".data 35000) = some 35000 :=
  C3_extraction_roundtrip "iPhone 15".data 35000 (by decide) (by decide)
    (by decide) (by decide) (by decide) (by decide) (by decide)

end SmartShopSaver
